import Mathlib

/-!
Verification of the slot-availability and occupancy engine (src/App.jsx).

Shallow embedding of the scheduling core of the nails-organizer app:
business rules (`rulesFor`), slot grid (`halfHourSlots`), time parsing
(`toMinutes`), occupancy bitmap (`buildOccupancy`), coverage and
fully-booked evaluators (`coveragePct`, `isFullyBooked`), availability
search (`canFit`, `optionsFor`) and deletion (`removeAppt`).

Modelling conventions:
* A calendar date is represented by its weekday index `wd : Nat`
  (0 = Sunday … 6 = Saturday), the only attribute of a date the engine
  reads (`rulesFor` calls `weekdayIndex`).
* JavaScript numbers that are integers here are `Int`; `Math.floor(x/30)`
  on them is `Int.fdiv _ 30` (floor division).
* `toMinutes` returns `Option Int`: `none` models the `NaN` produced by
  `Number` on a non-numeric component.  A `NaN` start makes every `<`/`>`
  comparison false in JS, so the marking loop body never runs and
  `canFit`'s guard and loop are skipped; the `none` branches below
  reproduce exactly that behaviour.
* An appointment's stored `duration` is an `Int`; the falsy values of
  `a.duration || 90` (missing, 0) are modelled by `0`.
-/

/-- Appointment record (data model of the app).  `duration = 0` models a
missing/falsy stored duration. -/
structure Appt where
  id : String
  date : String
  time : String
  duration : Int
  clientName : String
  notes : String
deriving DecidableEq

/-- Day rules returned by `rulesFor`; the JS field `end` is `endH` here
(`end` is a Lean keyword). -/
structure DayRules where
  start : Nat
  endH : Nat
  max : Nat
  closed : Bool
deriving DecidableEq

/-- JS `rulesFor`: Sunday closed, Saturday 9–15 max 3, otherwise 8–16 max 5. -/
def rulesFor (wd : Nat) : DayRules :=
  if wd = 0 then { start := 0, endH := 0, max := 0, closed := true }
  else if wd = 6 then { start := 9, endH := 15, max := 3, closed := false }
  else { start := 8, endH := 16, max := 5, closed := false }

/-- JS `String(h).padStart(2, "0")`. -/
def pad2 (n : Nat) : String :=
  let s := toString n
  if s.length < 2 then "0" ++ s else s

/-- JS `halfHourSlots`: half-hour labels from opening to closing. -/
def halfHourSlots (wd : Nat) : List String :=
  let r := rulesFor wd
  if r.closed || decide (r.endH ≤ r.start) then []
  else (List.range (r.endH - r.start)).flatMap (fun k =>
    [pad2 (r.start + k) ++ ":00", pad2 (r.start + k) ++ ":30"])

/-- Splitting a character list at a separator (JS `String.split`). -/
def splitAux (sep : Char) : List Char → List Char → List (List Char)
  | [], acc => [acc.reverse]
  | c :: cs, acc =>
    if c = sep then acc.reverse :: splitAux sep cs []
    else splitAux sep cs (c :: acc)

/-- JS `t.split(sep)` on the character level. -/
def splitChars (sep : Char) (cs : List Char) : List (List Char) :=
  splitAux sep cs []

/-- Value of a decimal digit character, `none` otherwise. -/
def digitVal (c : Char) : Option Nat :=
  if c.isDigit then some (c.toNat - 48) else none

/-- Decimal digit-string parser; `none` models JS `NaN`. -/
def parseNatChars : List Char → Option Nat → Option Nat
  | [], acc => acc
  | c :: cs, acc =>
    match digitVal c with
    | some d => parseNatChars cs (some ((acc.getD 0) * 10 + d))
    | none => none

/-- JS `Number` on an integer-literal string; `none` models `NaN`. -/
def parseIntChars : List Char → Option Int
  | '-' :: cs => (parseNatChars cs none).map (fun n => -(n : Int))
  | cs => (parseNatChars cs none).map (fun n => (n : Int))

/-- JS `toMinutes`: `const [hh, mm] = t.split(":").map(Number); hh*60+mm`.
`none` models a `NaN` result. -/
def toMinutes (t : String) : Option Int :=
  match (splitChars ':' t.data).map parseIntChars with
  | some hh :: some mm :: _ => some (hh * 60 + mm)
  | _ => none

/-- Result of JS `workingWindow`. -/
structure Window where
  startMin : Int
  endMin : Int
  slots : Nat

/-- JS `workingWindow`. -/
def workingWindow (wd : Nat) : Window :=
  let r := rulesFor wd
  { startMin := (r.start : Int) * 60
    endMin := (r.endH : Int) * 60
    slots := (r.endH - r.start) * 2 }

/-- Effective duration used by `buildOccupancy`:
JS `Math.min(90, Math.max(30, Number(a.duration || 90)))`. -/
def effDur (d : Int) : Int :=
  min 90 (max 30 (if d = 0 then 90 else d))

/-- Duration clamp used by `canFit`: JS `Math.min(90, Math.max(30, Number(dur)))`. -/
def durClamp (d : Int) : Int :=
  min 90 (max 30 d)

/-- The marking loop of `buildOccupancy`:
`for (m = s; m < e; m += 30) if (0 <= idx && idx < occ.length) occ[idx] = true`
with `idx = Math.floor((m - startMin)/30)`.  The `fuel` argument only bounds
the number of iterations; the loop's real exit condition is the guard
`m < e`, and every caller supplies `fuel = (e - m).toNat`, which exceeds the
iteration count since `m` grows by 30 each pass. -/
def markLoopF : Nat → Int → Int → Int → List Bool → List Bool
  | 0, _, _, _, occ => occ
  | fuel + 1, startMin, e, m, occ =>
    if m < e then
      markLoopF fuel startMin e (m + 30)
        (if 0 ≤ Int.fdiv (m - startMin) 30 ∧ Int.fdiv (m - startMin) 30 < (occ.length : Int)
         then occ.set (Int.fdiv (m - startMin) 30).toNat true
         else occ)
    else occ

/-- Marking of one appointment inside `buildOccupancy`'s `forEach`:
JS `s = Math.max(toMinutes(a.time), startMin)`, `e = Math.min(s + dur, endMin)`
with `dur` the effective duration `effDur`. -/
def markAppt (startMin endMin : Int) (occ : List Bool) (a : Appt) : List Bool :=
  match toMinutes a.time with
  | none => occ
  | some t =>
    markLoopF (min (max t startMin + effDur a.duration) endMin - max t startMin).toNat
      startMin (min (max t startMin + effDur a.duration) endMin) (max t startMin) occ

/-- JS `buildOccupancy`: `len = Math.max(0, (endMin - startMin)/30)` cells,
all `false`, then each appointment is folded in by `markAppt`. -/
def buildOccupancy (wd : Nat) (appts : List Appt) : List Bool :=
  appts.foldl
    (fun occ a => markAppt (workingWindow wd).startMin (workingWindow wd).endMin occ a)
    (List.replicate (max 0 (((workingWindow wd).endMin - (workingWindow wd).startMin) / 30)).toNat
      false)

/-- JS `coveragePct`: `(occ.filter(Boolean).length / occ.length) * 100`,
0 for an empty bitmap. -/
def coveragePct (wd : Nat) (appts : List Appt) : ℚ :=
  if (buildOccupancy wd appts).length = 0 then 0
  else ((((buildOccupancy wd appts).filter (fun b => b)).length : ℚ) /
    (((buildOccupancy wd appts).length : ℚ))) * 100

/-- JS `isFullyBooked`: `false` if closed, else `noFreeSlots || maxReached`. -/
def isFullyBooked (wd : Nat) (appts : List Appt) : Bool :=
  if (rulesFor wd).closed then false
  else
    (buildOccupancy wd appts).all (fun b => b)
      || decide ((rulesFor wd).max ≤ appts.length)

/-- The scanning loop of `canFit`:
`for (m = s; m < e; m += 30) if (idx < 0 || idx >= occ.length || occ[idx]) return false`
with `idx = Math.floor((m - startMin)/30)`.  As in `markLoopF`, `fuel` only
bounds the iterations. -/
def canFitLoopF : Nat → Int → Int → Int → List Bool → Bool
  | 0, _, _, _, _ => true
  | fuel + 1, startMin, e, m, occ =>
    if m < e then
      if Int.fdiv (m - startMin) 30 < 0 ∨ (occ.length : Int) ≤ Int.fdiv (m - startMin) 30
          ∨ occ.getD (Int.fdiv (m - startMin) 30).toNat false then false
      else canFitLoopF fuel startMin e (m + 30) occ
    else true

/-- JS `canFit` (inside `AddModal`), with `e = s + Math.min(90, Math.max(30, Number(dur)))`.
A `NaN` start time (`none`) makes both the `e > endMin` guard and the loop
guard false in JS, so the function returns `true`. -/
def canFit (wd : Nat) (startTime : String) (dur : Int) (occupancy : List Bool) : Bool :=
  match toMinutes startTime with
  | none => true
  | some s =>
    if s + durClamp dur > (workingWindow wd).endMin then false
    else canFitLoopF (s + durClamp dur - s).toNat (workingWindow wd).startMin
      (s + durClamp dur) s occupancy

/-- JS `optionsFor` (inside `AddModal`), with `occExisting = buildOccupancy(date, existing)`. -/
def optionsFor (wd : Nat) (existing : List Appt) (dur : Int) : List String :=
  (halfHourSlots wd).filter (fun t => canFit wd t dur (buildOccupancy wd existing))

/-- JS `removeAppt`: `prev.filter(a => a.id !== id)`. -/
def removeAppt (id : String) (prev : List Appt) : List Appt :=
  prev.filter (fun a => a.id != id)

/-- Cell `i` of a bitmap starting at `startMin` covers the half-open interval
`[startMin + 30 i, startMin + 30 i + 30)`; it is covered by the candidate
interval `[s, e)` when the two intervals intersect. -/
def cellOverlaps (startMin s e : Int) (i : Nat) : Prop :=
  startMin + 30 * (i : Int) < e ∧ s < startMin + 30 * (i : Int) + 30

/-- Appointment with the given time and duration (other fields irrelevant
to the engine). -/
def mkAppt (time : String) (dur : Int) : Appt :=
  { id := "", date := "", time := time, duration := dur, clientName := "", notes := "" }

/-! ## General helper lemmas -/

/-- `Math.floor` division by 30 agrees with Euclidean division (positive divisor). -/
lemma fdiv30 (x : Int) : Int.fdiv x 30 = x / 30 :=
  Int.fdiv_eq_ediv x (by omega)

lemma bool_eq_of_iff {a b : Bool} (h : a = true ↔ b = true) : a = b := by
  cases a <;> cases b <;> simp_all

/-- Effect of `l.set j true` on membership of index `i`, phrased with `getD`. -/
lemma getD_set_true_iff (l : List Bool) (j i : Nat) :
    ((l.set j true).getD i false = true) ↔
      (l.getD i false = true ∨ (i = j ∧ j < l.length)) := by
  by_cases hji : j = i
  · subst hji
    by_cases hl : j < l.length
    · simp [List.getD_eq_getElem?_getD, List.getElem?_set, hl]
    · rw [List.set_eq_of_length_le (by omega)]
      simp [hl]
  · simp [List.getD_eq_getElem?_getD, List.getElem?_set, hji]
    intro h
    exact absurd h.symm hji

/-- Extensionality for boolean lists via `getD`. -/
lemma listBool_ext (l₁ l₂ : List Bool) (hlen : l₁.length = l₂.length)
    (h : ∀ i : Nat, i < l₁.length → (l₁.getD i false = true ↔ l₂.getD i false = true)) :
    l₁ = l₂ := by
  apply List.ext_getElem hlen
  intro n h₁ h₂
  have hiff := h n h₁
  rw [List.getD_eq_getElem?_getD, List.getD_eq_getElem?_getD,
    List.getElem?_eq_getElem h₁, List.getElem?_eq_getElem h₂] at hiff
  simpa using bool_eq_of_iff (by simpa using hiff)

/-- `List.all` of the identity, phrased with `getD`. -/
lemma all_true_iff (l : List Bool) :
    l.all (fun b => b) = true ↔ ∀ i : Nat, i < l.length → l.getD i false = true := by
  induction l with
  | nil => simp
  | cons b t ih =>
    simp only [List.all_cons, Bool.and_eq_true, ih]
    constructor
    · rintro ⟨hb, ht⟩ i hi
      cases i with
      | zero => simpa using hb
      | succ j => exact ht j (by simpa using hi)
    · intro h
      refine ⟨by simpa using h 0 (by simp), fun i hi => h (i + 1) (by simpa using hi)⟩

/-- The number of `true` cells is monotone under pointwise implication. -/
lemma filterCount_mono (l₁ l₂ : List Bool) (hlen : l₁.length = l₂.length)
    (h : ∀ i : Nat, i < l₁.length → l₁.getD i false = true → l₂.getD i false = true) :
    (l₁.filter (fun b => b)).length ≤ (l₂.filter (fun b => b)).length := by
  induction l₁ generalizing l₂ with
  | nil => simp
  | cons b t ih =>
    cases l₂ with
    | nil => simp at hlen
    | cons c u =>
      have hbc : b = true → c = true := by
        intro hb
        simpa using h 0 (by simp) (by simpa using hb)
      have htu := ih u (by simpa using hlen)
        (fun i hi hv => by simpa using h (i + 1) (by simpa using hi) (by simpa using hv))
      cases b with
      | false => cases c <;> simp [List.filter] <;> omega
      | true =>
        have hc : c = true := hbc rfl
        subst hc
        simpa [List.filter] using htu

/-- Setting one cell to `true` raises the `true`-count by at most one. -/
lemma countTrue_set_le (l : List Bool) (j : Nat) :
    ((l.set j true).filter (fun b => b)).length ≤ (l.filter (fun b => b)).length + 1 := by
  induction l generalizing j with
  | nil => simp
  | cons b t ih =>
    cases j with
    | zero => cases b <;> simp [List.filter]
    | succ j =>
      have := ih j
      cases b <;> simpa [List.filter] using this

lemma countTrue_replicate_false (n : Nat) :
    ((List.replicate n false).filter (fun b => b)).length = 0 := by
  induction n with
  | zero => simp
  | succ k ih => simp [List.replicate, List.filter, ih]

/-! ## Properties of the marking loop -/

lemma markLoopF_length (fuel : Nat) (sm e : Int) :
    ∀ (m : Int) (occ : List Bool), (markLoopF fuel sm e m occ).length = occ.length := by
  induction fuel with
  | zero => intro m occ; rfl
  | succ n ih =>
    intro m occ
    simp only [markLoopF]
    split_ifs with hme hcond
    · rw [ih]; simp
    · exact ih _ _
    · rfl

/-- Which cells the marking loop turns `true`: exactly the in-range indices
`⌊(m + 30 k - sm)/30⌋` for the iterations `k` with `m + 30 k < e`. -/
lemma markLoopF_getD_iff (sm e : Int) :
    ∀ (fuel : Nat) (m : Int) (occ : List Bool) (i : Nat), i < occ.length →
      ((markLoopF fuel sm e m occ).getD i false = true ↔
        (occ.getD i false = true ∨
          ∃ k : Nat, k < fuel ∧ m + 30 * (k : Int) < e ∧
            Int.fdiv (m + 30 * (k : Int) - sm) 30 = (i : Int))) := by
  intro fuel
  induction fuel with
  | zero =>
    intro m occ i hi
    simp [markLoopF]
  | succ n ih =>
    intro m occ i hi
    simp only [markLoopF]
    by_cases hme : m < e
    · rw [if_pos hme]
      by_cases hcond : 0 ≤ Int.fdiv (m - sm) 30 ∧ Int.fdiv (m - sm) 30 < (occ.length : Int)
      · rw [if_pos hcond]
        rw [ih (m + 30) _ i (by simpa using hi)]
        rw [getD_set_true_iff]
        simp only [fdiv30] at hcond ⊢
        constructor
        · rintro ((h | ⟨hij, hjl⟩) | ⟨k, hk, hlt, hdiv⟩)
          · exact Or.inl h
          · refine Or.inr ⟨0, by omega, by push_cast; omega, by push_cast; omega⟩
          · refine Or.inr ⟨k + 1, by omega, by push_cast at hlt ⊢; omega,
              by push_cast at hdiv ⊢; omega⟩
        · rintro (h | ⟨k, hk, hlt, hdiv⟩)
          · exact Or.inl (Or.inl h)
          · cases k with
            | zero =>
              refine Or.inl (Or.inr ⟨by push_cast at hdiv; omega, by omega⟩)
            | succ j =>
              refine Or.inr ⟨j, by omega, by push_cast at hlt ⊢; omega,
                by push_cast at hdiv ⊢; omega⟩
      · rw [if_neg hcond]
        rw [ih (m + 30) occ i hi]
        simp only [fdiv30] at hcond ⊢
        constructor
        · rintro (h | ⟨k, hk, hlt, hdiv⟩)
          · exact Or.inl h
          · exact Or.inr ⟨k + 1, by omega, by push_cast at hlt ⊢; omega,
              by push_cast at hdiv ⊢; omega⟩
        · rintro (h | ⟨k, hk, hlt, hdiv⟩)
          · exact Or.inl h
          · cases k with
            | zero =>
              exfalso
              push_cast at hdiv
              omega
            | succ j =>
              exact Or.inr ⟨j, by omega, by push_cast at hlt ⊢; omega,
                by push_cast at hdiv ⊢; omega⟩
    · rw [if_neg hme]
      constructor
      · intro h; exact Or.inl h
      · rintro (h | ⟨k, hk, hlt, hdiv⟩)
        · exact h
        · exfalso; omega

/-- The scanning loop accepts iff every examined index is in range and free. -/
lemma canFitLoopF_iff (sm e : Int) :
    ∀ (fuel : Nat) (m : Int) (occ : List Bool),
      (canFitLoopF fuel sm e m occ = true ↔
        ∀ k : Nat, k < fuel → m + 30 * (k : Int) < e →
          (0 ≤ Int.fdiv (m + 30 * (k : Int) - sm) 30 ∧
           Int.fdiv (m + 30 * (k : Int) - sm) 30 < (occ.length : Int) ∧
           occ.getD (Int.fdiv (m + 30 * (k : Int) - sm) 30).toNat false = false)) := by
  intro fuel
  induction fuel with
  | zero => intro m occ; simp [canFitLoopF]
  | succ n ih =>
    intro m occ
    simp only [canFitLoopF]
    by_cases hme : m < e
    · rw [if_pos hme]
      by_cases hbad : Int.fdiv (m - sm) 30 < 0 ∨ (occ.length : Int) ≤ Int.fdiv (m - sm) 30
          ∨ occ.getD (Int.fdiv (m - sm) 30).toNat false = true
      · rw [if_pos hbad]
        simp only [Bool.false_eq_true, false_iff]
        intro hall
        have harg : m + 30 * ((0 : Nat) : Int) - sm = m - sm := by push_cast; ring
        obtain ⟨h1, h2, h3⟩ := hall 0 (by omega) (by push_cast; omega)
        rw [harg] at h1 h2 h3
        rcases hbad with hb | hb | hb
        · omega
        · omega
        · rw [h3] at hb
          exact absurd hb (by simp)
      · rw [if_neg hbad]
        push_neg at hbad
        obtain ⟨hb1, hb2, hb3⟩ := hbad
        replace hb3 : occ.getD (Int.fdiv (m - sm) 30).toNat false = false := by
          revert hb3
          cases occ.getD (Int.fdiv (m - sm) 30).toNat false <;> simp
        rw [ih (m + 30) occ]
        constructor
        · intro h k hk hklt
          cases k with
          | zero =>
            have harg : m + 30 * ((0 : Nat) : Int) - sm = m - sm := by push_cast; ring
            rw [harg]
            exact ⟨by omega, by omega, hb3⟩
          | succ j =>
            have harg : m + 30 * ((j + 1 : Nat) : Int) - sm = m + 30 + 30 * (j : Int) - sm := by
              push_cast; ring
            rw [harg]
            exact h j (by omega) (by push_cast at hklt; omega)
        · intro h k hk hklt
          have harg : m + 30 + 30 * (k : Int) - sm = m + 30 * ((k + 1 : Nat) : Int) - sm := by
            push_cast; ring
          rw [harg]
          exact h (k + 1) (by omega) (by push_cast; omega)
    · rw [if_neg hme]
      simp only [true_iff]
      intro k hk hklt
      exfalso
      omega

/-! ## Properties of `markAppt` and `buildOccupancy` -/

/-- The set of cell indices one appointment marks: the in-window part of its
clamped interval, exactly as `markAppt`'s loop visits them. -/
def apptCov (sm em : Int) (a : Appt) (i : Nat) : Prop :=
  match toMinutes a.time with
  | none => False
  | some t =>
    ∃ k : Nat, max t sm + 30 * (k : Int) < min (max t sm + effDur a.duration) em ∧
      Int.fdiv (max t sm + 30 * (k : Int) - sm) 30 = (i : Int)

lemma markAppt_length (sm em : Int) (occ : List Bool) (a : Appt) :
    (markAppt sm em occ a).length = occ.length := by
  cases htm : toMinutes a.time with
  | none => simp [markAppt, htm]
  | some t => simp [markAppt, htm, markLoopF_length]

/-- Pointwise effect of marking one appointment. -/
lemma markAppt_getD_iff (sm em : Int) (occ : List Bool) (a : Appt) (i : Nat)
    (hi : i < occ.length) :
    ((markAppt sm em occ a).getD i false = true ↔
      (occ.getD i false = true ∨ apptCov sm em a i)) := by
  cases htm : toMinutes a.time with
  | none => simp [markAppt, apptCov, htm]
  | some t =>
    simp only [markAppt, apptCov, htm]
    rw [markLoopF_getD_iff sm _ _ _ occ i hi]
    constructor
    · rintro (h | ⟨k, hk, hlt, hdiv⟩)
      · exact Or.inl h
      · exact Or.inr ⟨k, hlt, hdiv⟩
    · rintro (h | ⟨k, hlt, hdiv⟩)
      · exact Or.inl h
      · refine Or.inr ⟨k, ?_, hlt, hdiv⟩
        omega

lemma foldlMark_length (sm em : Int) (l : List Appt) :
    ∀ occ : List Bool, (l.foldl (fun occ a => markAppt sm em occ a) occ).length = occ.length := by
  induction l with
  | nil => intro occ; rfl
  | cons a t ih => intro occ; rw [List.foldl_cons, ih, markAppt_length]

lemma buildOccupancy_length (wd : Nat) (appts : List Appt) :
    (buildOccupancy wd appts).length =
      (max 0 (((workingWindow wd).endMin - (workingWindow wd).startMin) / 30)).toNat := by
  unfold buildOccupancy
  rw [foldlMark_length]
  simp

lemma buildOccupancy_append (wd : Nat) (appts : List Appt) (a : Appt) :
    buildOccupancy wd (appts ++ [a]) =
      markAppt (workingWindow wd).startMin (workingWindow wd).endMin
        (buildOccupancy wd appts) a := by
  unfold buildOccupancy
  rw [List.foldl_append]
  rfl

/-- Each loop pass can mark at most one fresh cell. -/
lemma markLoopF_count_le (sm e : Int) :
    ∀ (fuel : Nat) (m : Int) (occ : List Bool) (k : Nat), e ≤ m + 30 * (k : Int) →
      ((markLoopF fuel sm e m occ).filter (fun b => b)).length ≤
        (occ.filter (fun b => b)).length + k := by
  intro fuel
  induction fuel with
  | zero => intro m occ k _; simp [markLoopF]
  | succ n ih =>
    intro m occ k hk
    simp only [markLoopF]
    split_ifs with hme hcond
    · cases k with
      | zero => exfalso; push_cast at hk; omega
      | succ j =>
        have h1 := ih (m + 30) (occ.set (Int.fdiv (m - sm) 30).toNat true) j
          (by push_cast at hk ⊢; omega)
        have h2 := countTrue_set_le occ (Int.fdiv (m - sm) 30).toNat
        omega
    · cases k with
      | zero => exfalso; push_cast at hk; omega
      | succ j =>
        have h1 := ih (m + 30) occ j (by push_cast at hk ⊢; omega)
        omega
    · omega

/-- After clamping, one appointment marks at most three cells. -/
lemma markAppt_count_le (sm em : Int) (occ : List Bool) (a : Appt) :
    ((markAppt sm em occ a).filter (fun b => b)).length ≤
      (occ.filter (fun b => b)).length + 3 := by
  cases htm : toMinutes a.time with
  | none => simp [markAppt, htm]
  | some t =>
    simp only [markAppt, htm]
    apply markLoopF_count_le
    have h90 : effDur a.duration ≤ 90 := min_le_left _ _
    have hm := min_le_left (max t sm + effDur a.duration) em
    push_cast
    omega

lemma foldlMark_count_le (sm em : Int) (l : List Appt) :
    ∀ occ : List Bool,
      ((l.foldl (fun occ a => markAppt sm em occ a) occ).filter (fun b => b)).length ≤
        (occ.filter (fun b => b)).length + 3 * l.length := by
  induction l with
  | nil => intro occ; simp
  | cons a t ih =>
    intro occ
    rw [List.foldl_cons]
    have h1 := ih (markAppt sm em occ a)
    have h2 := markAppt_count_le sm em occ a
    simp only [List.length_cons]
    omega

lemma buildOccupancy_count_le (wd : Nat) (appts : List Appt) :
    ((buildOccupancy wd appts).filter (fun b => b)).length ≤ 3 * appts.length := by
  unfold buildOccupancy
  have h := foldlMark_count_le (workingWindow wd).startMin (workingWindow wd).endMin appts
    (List.replicate
      (max 0 (((workingWindow wd).endMin - (workingWindow wd).startMin) / 30)).toNat false)
  rw [countTrue_replicate_false] at h
  omega

/-! ## Business-rule case analysis and slot-grid facts -/

lemma rulesFor_cases (wd : Nat) :
    rulesFor wd = ⟨0, 0, 0, true⟩ ∨ rulesFor wd = ⟨9, 15, 3, false⟩ ∨
      rulesFor wd = ⟨8, 16, 5, false⟩ := by
  unfold rulesFor
  split_ifs <;> simp

/-- A slot label parses, lies inside the working window with room for one
cell, and is 30-minute aligned to the window start. -/
def goodSlot (sm em : Int) (t : String) : Bool :=
  match toMinutes t with
  | some s => decide (sm ≤ s ∧ s + 30 ≤ em ∧ (s - sm) % 30 = 0)
  | none => false

lemma slots_good (wd : Nat) :
    ∀ t ∈ halfHourSlots wd,
      goodSlot (workingWindow wd).startMin (workingWindow wd).endMin t = true := by
  rcases rulesFor_cases wd with h | h | h <;>
  · simp only [halfHourSlots, workingWindow, h]
    decide

/-- Every slot-grid label denotes `startMin + 30 q` minutes for some cell
index `q`, with a full half-hour before closing. -/
lemma slot_aligned (wd : Nat) (t : String) (ht : t ∈ halfHourSlots wd) :
    ∃ s : Int, toMinutes t = some s ∧ ∃ q : Nat,
      s = (workingWindow wd).startMin + 30 * (q : Int) ∧
      (workingWindow wd).startMin + 30 * ((q : Int) + 1) ≤ (workingWindow wd).endMin := by
  cases htm : toMinutes t with
  | none =>
    have hg := slots_good wd t ht
    simp [goodSlot, htm] at hg
  | some s =>
    have hg := slots_good wd t ht
    simp only [goodSlot, htm, decide_eq_true_eq] at hg
    obtain ⟨h1, h2, h3⟩ := hg
    refine ⟨s, rfl, ((s - (workingWindow wd).startMin) / 30).toNat, ?_, ?_⟩
    · omega
    · omega

/-- The window starts at a non-negative minute, is well ordered, and the
bitmap length accounts exactly for the window, 30 minutes per cell. -/
lemma window_facts (wd : Nat) :
    0 ≤ (workingWindow wd).startMin ∧
    (workingWindow wd).startMin ≤ (workingWindow wd).endMin ∧
    30 * ((max 0 (((workingWindow wd).endMin - (workingWindow wd).startMin) / 30)).toNat : Int) =
      (workingWindow wd).endMin - (workingWindow wd).startMin := by
  rcases rulesFor_cases wd with h | h | h <;>
  · simp only [workingWindow, h]
    refine ⟨by decide, by decide, by decide⟩

/-- Marking two appointments commutes: the marked set is a union. -/
lemma markAppt_comm (sm em : Int) (occ : List Bool) (a b : Appt) :
    markAppt sm em (markAppt sm em occ a) b = markAppt sm em (markAppt sm em occ b) a := by
  apply listBool_ext
  · rw [markAppt_length, markAppt_length, markAppt_length, markAppt_length]
  · intro i hi
    have hia : i < occ.length := by
      rw [markAppt_length, markAppt_length] at hi; exact hi
    rw [markAppt_getD_iff _ _ _ _ _ (by rw [markAppt_length]; exact hia),
        markAppt_getD_iff _ _ _ _ _ hia,
        markAppt_getD_iff _ _ _ _ _ (by rw [markAppt_length]; exact hia),
        markAppt_getD_iff _ _ _ _ _ hia]
    tauto

/-! ## Claim theorems -/

/-- C1 (amended): the effective duration `buildOccupancy` marks with equals
`clamp(duration, 30, 90)` for every nonzero integer stored duration (a falsy
stored duration, modelled by 0, first defaults to 90 and is then clamped);
an appointment with duration 10 occupies exactly 1 cell, and one with
duration 500 occupies at most the cells from its start up to the window
end. -/
theorem claim_C1_theorem :
    (∀ d : Int, d ≠ 0 → effDur d = durClamp d) ∧
    buildOccupancy 1 [mkAppt "08:00" 10] = [true] ++ List.replicate 15 false ∧
    buildOccupancy 1 [mkAppt "15:00" 500] = List.replicate 14 false ++ [true, true] := by
  refine ⟨?_, by decide, by decide⟩
  intro d hd
  unfold effDur durClamp
  rw [if_neg hd]

/-- C1 witness: a concrete nonzero duration where the effective duration is
the clamp. -/
theorem claim_C1_witness : effDur 10 = durClamp 10 :=
  claim_C1_theorem.1 10 (by decide)

/-- C1 counterexample: for the integer stored duration 0, the effective
duration used by `buildOccupancy` is 90 (three cells from 08:00), not
`clamp(0, 30, 90) = 30` (one cell). -/
theorem claim_C1_counterexample :
    ¬ effDur 0 = durClamp 0 ∧ effDur 0 = 90 ∧ durClamp 0 = 30 ∧
    buildOccupancy 1 [mkAppt "08:00" 0] = [true, true, true] ++ List.replicate 13 false := by
  exact ⟨by decide, by decide, by decide, by decide⟩

/-- C5: `buildOccupancy` is invariant under permutation of the appointment
list; overlapping appointments both map their cells to occupied. -/
theorem claim_C5_theorem (wd : Nat) (l₁ l₂ : List Appt) (h : List.Perm l₁ l₂) :
    buildOccupancy wd l₁ = buildOccupancy wd l₂ := by
  unfold buildOccupancy
  haveI : RightCommutative
      (fun (occ : List Bool) (a : Appt) =>
        markAppt (workingWindow wd).startMin (workingWindow wd).endMin occ a) :=
    ⟨fun occ a b => markAppt_comm _ _ occ a b⟩
  exact h.foldl_eq _

/-- C5 witness: two overlapping appointments folded in either order give the
same bitmap. -/
theorem claim_C5_witness :
    buildOccupancy 1 [mkAppt "09:00" 60, mkAppt "09:30" 90] =
      buildOccupancy 1 [mkAppt "09:30" 90, mkAppt "09:00" 60] :=
  claim_C5_theorem 1 _ _ (by decide)

/-- C6: on a Monday with no appointments and requested duration 90 the
availability search returns exactly the 14 starts 08:00 … 14:30, and the
Monday slot grid is duplicate-free and strictly increasing with step
exactly 30 minutes (its parsed minute values are 480, 510, …, 930). -/
theorem claim_C6_theorem :
    optionsFor 1 [] 90 = ["08:00", "08:30", "09:00", "09:30", "10:00", "10:30", "11:00",
      "11:30", "12:00", "12:30", "13:00", "13:30", "14:00", "14:30"] ∧
    (optionsFor 1 [] 90).length = 14 ∧
    (halfHourSlots 1).map toMinutes =
      (List.range 16).map (fun k => some (480 + 30 * (k : Int))) ∧
    (halfHourSlots 1).Nodup := by
  exact ⟨by decide, by decide, by decide, by decide⟩

/-- C7: on Sunday the rules are closed, the slot grid is empty,
`isFullyBooked` is false, `coveragePct` is 0, and the availability search
returns the empty list for every appointment list and duration. -/
theorem claim_C7_theorem :
    (rulesFor 0).closed = true ∧
    halfHourSlots 0 = [] ∧
    (∀ appts : List Appt, isFullyBooked 0 appts = false) ∧
    (∀ appts : List Appt, coveragePct 0 appts = 0) ∧
    (∀ (appts : List Appt) (dur : Int), optionsFor 0 appts dur = []) := by
  refine ⟨by decide, by decide, ?_, ?_, ?_⟩
  · intro appts
    simp [isFullyBooked, rulesFor]
  · intro appts
    have h0 : (buildOccupancy 0 appts).length = 0 := by
      rw [buildOccupancy_length]; decide
    simp [coveragePct, h0]
  · intro appts dur
    simp [optionsFor, show halfHourSlots 0 = [] from by decide]

/-- C8: `buildOccupancy` defaults a falsy stored duration (0/missing) to 90
minutes before clamping, while `canFit` clamps the same raw value 0 up to
30; for nonzero durations the two agree on `clamp(d, 30, 90)`. -/
theorem claim_C8_theorem :
    effDur 0 = 90 ∧ durClamp 0 = 30 ∧
    (∀ d : Int, d ≠ 0 → effDur d = durClamp d) ∧
    buildOccupancy 1 [mkAppt "14:30" 0] = List.replicate 13 false ++ [true, true, true] ∧
    canFit 1 "15:30" 0 (buildOccupancy 1 []) = true := by
  refine ⟨by decide, by decide, ?_, by decide, by decide⟩
  intro d hd
  unfold effDur durClamp
  rw [if_neg hd]

/-- C8 witness: a concrete nonzero duration on which the two clamps agree. -/
theorem claim_C8_witness : effDur 45 = durClamp 45 :=
  claim_C8_theorem.2.2.1 45 (by decide)

/-- C10: deletion removes exactly the appointments with the given id,
keeps every other record in order (sublist), and is the identity when no
appointment has that id; appointments with other ids (hence on any other
date) are untouched. -/
theorem claim_C10_theorem (id : String) (prev : List Appt) :
    (removeAppt id prev).Sublist prev ∧
    (∀ a : Appt, a ∈ removeAppt id prev ↔ (a ∈ prev ∧ a.id ≠ id)) ∧
    ((∀ a ∈ prev, a.id ≠ id) → removeAppt id prev = prev) := by
  refine ⟨List.filter_sublist _, ?_, ?_⟩
  · intro a
    unfold removeAppt
    rw [List.mem_filter]
    simp [bne_iff_ne]
  · intro h
    unfold removeAppt
    rw [List.filter_eq_self]
    intro a ha
    simpa [bne_iff_ne] using h a ha

/-- C10 witness: deleting an id that matches nothing leaves the list
unchanged. -/
theorem claim_C10_witness :
    removeAppt "zz" [mkAppt "09:00" 30] = [mkAppt "09:00" 30] :=
  ( claim_C10_theorem "zz" [mkAppt "09:00" 30]).2.2 (by decide)

/-- Three short non-overlapping Saturday appointments (scenario C). -/
def satThree : List Appt := [mkAppt "09:00" 30, mkAppt "10:00" 30, mkAppt "11:00" 30]

/-- Six Monday appointments that cover all 16 cells. -/
def sixCover : List Appt := [mkAppt "08:00" 90, mkAppt "09:30" 90, mkAppt "11:00" 90,
  mkAppt "12:30" 90, mkAppt "14:00" 90, mkAppt "15:30" 30]

/-- C3 (amended): `isFullyBooked` is false on a closed day, and on a
non-closed day is true iff every cell is occupied or the count reaches the
day's maximum; the count disjunct fires independently (Saturday, 3 short
appointments, free cells remaining), and the all-cells disjunct forces
fully-booked regardless of the count; however no Monday list of at most 2
appointments can occupy all 16 cells (each appointment marks at most 3
cells after clamping), so the spec's scenario D is unreachable. -/
theorem claim_C3_theorem :
    (∀ (wd : Nat) (appts : List Appt), (rulesFor wd).closed = true →
      isFullyBooked wd appts = false) ∧
    (∀ (wd : Nat) (appts : List Appt), (rulesFor wd).closed = false →
      (isFullyBooked wd appts = true ↔
        ((buildOccupancy wd appts).all (fun b => b) = true ∨
          (rulesFor wd).max ≤ appts.length))) ∧
    (satThree.length = 3 ∧ (buildOccupancy 6 satThree).all (fun b => b) = false ∧
      isFullyBooked 6 satThree = true) ∧
    (∀ (wd : Nat) (appts : List Appt), (rulesFor wd).closed = false →
      (buildOccupancy wd appts).all (fun b => b) = true → isFullyBooked wd appts = true) ∧
    (∀ appts : List Appt, appts.length ≤ 2 →
      (buildOccupancy 1 appts).all (fun b => b) = false) := by
  refine ⟨?_, ?_, ⟨by decide, by decide, by decide⟩, ?_, ?_⟩
  · intro wd appts hcl
    simp [isFullyBooked, hcl]
  · intro wd appts hcl
    simp [isFullyBooked, hcl]
  · intro wd appts hcl hall
    simp [isFullyBooked, hcl, hall]
  · intro appts hlen
    have hc := buildOccupancy_count_le 1 appts
    have hlen16 : (buildOccupancy 1 appts).length = 16 := by
      rw [buildOccupancy_length]; decide
    by_contra hne
    have hall : (buildOccupancy 1 appts).all (fun b => b) = true := by
      revert hne; cases (buildOccupancy 1 appts).all (fun b => b) <;> simp
    have hfe : (buildOccupancy 1 appts).filter (fun b => b) = buildOccupancy 1 appts := by
      rw [List.filter_eq_self]
      intro b hb
      simpa using (List.all_eq_true.mp hall) b hb
    rw [hfe, hlen16] at hc
    omega

/-- C3 witness: the closed case, the iff, the achievable all-cells scenario
with six appointments, and the emptiness of the 2-appointment saturation. -/
theorem claim_C3_witness :
    isFullyBooked 0 [] = false ∧
    (isFullyBooked 1 [] = true ↔
      ((buildOccupancy 1 []).all (fun b => b) = true ∨
        (rulesFor 1).max ≤ ([] : List Appt).length)) ∧
    isFullyBooked 1 sixCover = true ∧
    (buildOccupancy 1 []).all (fun b => b) = false :=
  ⟨claim_C3_theorem.1 0 [] (by decide),
   claim_C3_theorem.2.1 1 [] (by decide),
   claim_C3_theorem.2.2.2.1 1 sixCover (by decide) (by decide),
   claim_C3_theorem.2.2.2.2 [] (by decide)⟩

/-- C3 counterexample: the Monday scenario of the claim — all 16 cells
covered by only 2 appointments — is impossible, since a clamped appointment
marks at most 3 cells. -/
theorem claim_C3_counterexample :
    ¬ ∃ appts : List Appt, appts.length = 2 ∧
      (buildOccupancy 1 appts).all (fun b => b) = true := by
  rintro ⟨appts, hlen, hall⟩
  have hc := buildOccupancy_count_le 1 appts
  have hlen16 : (buildOccupancy 1 appts).length = 16 := by
    rw [buildOccupancy_length]; decide
  have hfe : (buildOccupancy 1 appts).filter (fun b => b) = buildOccupancy 1 appts := by
    rw [List.filter_eq_self]
    intro b hb
    simpa using (List.all_eq_true.mp hall) b hb
  rw [hfe, hlen16] at hc
  omega

/-- C4: appending one appointment to a day's list never decreases
`coveragePct` and never flips `isFullyBooked` from true to false. -/
theorem claim_C4_theorem (wd : Nat) (appts : List Appt) (a : Appt) :
    coveragePct wd appts ≤ coveragePct wd (appts ++ [a]) ∧
    (isFullyBooked wd appts = true → isFullyBooked wd (appts ++ [a]) = true) := by
  have hlen : (buildOccupancy wd (appts ++ [a])).length = (buildOccupancy wd appts).length := by
    rw [buildOccupancy_append, markAppt_length]
  have hmono : ∀ i : Nat, i < (buildOccupancy wd appts).length →
      (buildOccupancy wd appts).getD i false = true →
      (buildOccupancy wd (appts ++ [a])).getD i false = true := by
    intro i hi hv
    rw [buildOccupancy_append, markAppt_getD_iff _ _ _ _ _ hi]
    exact Or.inl hv
  have hcount := filterCount_mono _ _ hlen.symm hmono
  constructor
  · unfold coveragePct
    rw [hlen]
    by_cases h0 : (buildOccupancy wd appts).length = 0
    · simp [h0]
    · rw [if_neg h0, if_neg h0]
      have hc : ((((buildOccupancy wd appts).filter (fun b => b)).length : ℚ)) ≤
          (((buildOccupancy wd (appts ++ [a])).filter (fun b => b)).length : ℚ) := by
        exact_mod_cast hcount
      have hl : (0 : ℚ) < ((buildOccupancy wd appts).length : ℚ) := by
        exact_mod_cast Nat.pos_of_ne_zero h0
      gcongr
  · intro hfull
    by_cases hcl : (rulesFor wd).closed = true
    · unfold isFullyBooked at hfull
      rw [if_pos hcl] at hfull
      exact absurd hfull (by simp)
    · unfold isFullyBooked at hfull ⊢
      rw [if_neg hcl] at hfull ⊢
      rw [Bool.or_eq_true] at hfull ⊢
      rcases hfull with hall | hmax
      · left
        rw [all_true_iff] at hall ⊢
        intro i hi
        rw [hlen] at hi
        exact hmono i hi (hall i hi)
      · right
        rw [decide_eq_true_eq] at hmax ⊢
        rw [List.length_append]
        simp only [List.length_cons, List.length_nil]
        omega

/-- C4 witness: adding an appointment to a fully-booked Saturday keeps it
fully booked and does not decrease coverage. -/
theorem claim_C4_witness :
    coveragePct 6 satThree ≤ coveragePct 6 (satThree ++ [mkAppt "12:00" 30]) ∧
    isFullyBooked 6 (satThree ++ [mkAppt "12:00" 30]) = true :=
  ⟨(claim_C4_theorem 6 satThree (mkAppt "12:00" 30)).1,
   (claim_C4_theorem 6 satThree (mkAppt "12:00" 30)).2 (by decide)⟩

/-- C2: every start time returned by the availability search is a slot-grid
member whose clamped interval ends by closing time and covers no cell that
is already occupied in the bitmap built from the existing appointments
alone. -/
theorem claim_C2_theorem (wd : Nat) (existing : List Appt) (dur : Int) (t : String)
    (ht : t ∈ optionsFor wd existing dur) :
    t ∈ halfHourSlots wd ∧
    ∃ s : Int, toMinutes t = some s ∧
      s + durClamp dur ≤ (workingWindow wd).endMin ∧
      ∀ i : Nat, i < (buildOccupancy wd existing).length →
        cellOverlaps (workingWindow wd).startMin s (s + durClamp dur) i →
        (buildOccupancy wd existing).getD i false = false := by
  unfold optionsFor at ht
  rw [List.mem_filter] at ht
  obtain ⟨hts, hfit⟩ := ht
  refine ⟨hts, ?_⟩
  obtain ⟨s, hsome, q, hq, hqe⟩ := slot_aligned wd t hts
  simp only [canFit, hsome] at hfit
  by_cases hgt : s + durClamp dur > (workingWindow wd).endMin
  · rw [if_pos hgt] at hfit
    exact absurd hfit (by simp)
  rw [if_neg hgt] at hfit
  rw [canFitLoopF_iff] at hfit
  refine ⟨s, hsome, by omega, ?_⟩
  intro i hi hov
  unfold cellOverlaps at hov
  obtain ⟨hov1, hov2⟩ := hov
  have hqi : q ≤ i := by omega
  have hlt : s + 30 * ((i - q : Nat) : Int) < s + durClamp dur := by omega
  have hk : (i - q : Nat) < (s + durClamp dur - s).toNat := by omega
  have h3 := hfit (i - q) hk hlt
  have hidx : Int.fdiv (s + 30 * ((i - q : Nat) : Int) - (workingWindow wd).startMin) 30
      = (i : Int) := by
    rw [fdiv30]
    omega
  rw [hidx] at h3
  have hnat : ((i : Int)).toNat = i := by omega
  rw [hnat] at h3
  exact h3.2.2

/-- C2 witness: on an empty Monday with requested duration 90, the returned
start 08:00 satisfies all three guarantees. -/
theorem claim_C2_witness :
    "08:00" ∈ halfHourSlots 1 ∧
    ∃ s : Int, toMinutes "08:00" = some s ∧
      s + durClamp 90 ≤ (workingWindow 1).endMin ∧
      ∀ i : Nat, i < (buildOccupancy 1 []).length →
        cellOverlaps (workingWindow 1).startMin s (s + durClamp 90) i →
        (buildOccupancy 1 []).getD i false = false :=
  claim_C2_theorem 1 [] 90 "08:00" (by decide)

/-- C9: for a slot-grid candidate on a non-closed day that passes the
end-time check, every index examined by `canFit`'s scan loop lies inside
`[0, occupancy.length)` — the out-of-bounds rejection branch cannot fire —
and acceptance is equivalent to all examined cells being free. -/
theorem claim_C9_theorem (wd : Nat) (appts : List Appt) (dur : Int) (t : String) (s : Int)
    (_hcl : (rulesFor wd).closed = false)
    (ht : t ∈ halfHourSlots wd)
    (hs : toMinutes t = some s)
    (hend : s + durClamp dur ≤ (workingWindow wd).endMin) :
    (∀ k : Nat, s + 30 * (k : Int) < s + durClamp dur →
      0 ≤ Int.fdiv (s + 30 * (k : Int) - (workingWindow wd).startMin) 30 ∧
      Int.fdiv (s + 30 * (k : Int) - (workingWindow wd).startMin) 30 <
        ((buildOccupancy wd appts).length : Int)) ∧
    (canFit wd t dur (buildOccupancy wd appts) = true ↔
      ∀ k : Nat, s + 30 * (k : Int) < s + durClamp dur →
        (buildOccupancy wd appts).getD
          (Int.fdiv (s + 30 * (k : Int) - (workingWindow wd).startMin) 30).toNat
          false = false) := by
  obtain ⟨s', hs', q, hq, hqe⟩ := slot_aligned wd t ht
  rw [hs] at hs'
  have hss : s' = s := Option.some.inj hs'.symm
  rw [hss] at hq
  obtain ⟨hw0, hwle, hwlen⟩ := window_facts wd
  have hcells : 30 * ((buildOccupancy wd appts).length : Int) =
      (workingWindow wd).endMin - (workingWindow wd).startMin := by
    rw [buildOccupancy_length]
    exact hwlen
  have hin : ∀ k : Nat, s + 30 * (k : Int) < s + durClamp dur →
      0 ≤ Int.fdiv (s + 30 * (k : Int) - (workingWindow wd).startMin) 30 ∧
      Int.fdiv (s + 30 * (k : Int) - (workingWindow wd).startMin) 30 <
        ((buildOccupancy wd appts).length : Int) := by
    intro k hk
    rw [fdiv30]
    exact ⟨by omega, by omega⟩
  refine ⟨hin, ?_⟩
  simp only [canFit, hs]
  rw [if_neg (by omega)]
  rw [canFitLoopF_iff]
  constructor
  · intro h k hk
    exact (h k (by omega) hk).2.2
  · intro h k hkf hk
    exact ⟨(hin k hk).1, (hin k hk).2, h k hk⟩

/-- C9 witness: Monday, empty bitmap, candidate 08:00, duration 90 — all
examined indices are in bounds and the acceptance equivalence holds. -/
theorem claim_C9_witness :
    (∀ k : Nat, (480 : Int) + 30 * (k : Int) < 480 + durClamp 90 →
      0 ≤ Int.fdiv (480 + 30 * (k : Int) - (workingWindow 1).startMin) 30 ∧
      Int.fdiv (480 + 30 * (k : Int) - (workingWindow 1).startMin) 30 <
        ((buildOccupancy 1 []).length : Int)) ∧
    (canFit 1 "08:00" 90 (buildOccupancy 1 []) = true ↔
      ∀ k : Nat, (480 : Int) + 30 * (k : Int) < 480 + durClamp 90 →
        (buildOccupancy 1 []).getD
          (Int.fdiv (480 + 30 * (k : Int) - (workingWindow 1).startMin) 30).toNat
          false = false) :=
  claim_C9_theorem 1 [] 90 "08:00" 480 (by decide) (by decide) (by decide) (by decide)

